import Mathlib

/-!
Verification of the Send Amount Authority & Mirroring Engine.

The numeric core (amount-engine.js) is embedded over the rationals: every
JavaScript number that the engine manipulates on the modelled input domain
is an exactly representable decimal, and the idealisation of float64
arithmetic by exact rational arithmetic is recorded where it matters.
JavaScript values that may flow into the engine are modelled by an
explicit inductive type so that null, undefined, NaN, strings, and
non-numeric objects are all distinguishable. String primitives of the
JavaScript runtime (trim, includes, toLowerCase, split) are modelled by
executable character-list functions.
-/

/-- A JavaScript value as it may reach the amount engine: a finite number,
NaN, a string, null, undefined, or a plain object (whose numeric
conversion is NaN). -/
inductive JSVal where
  | num (q : ℚ)
  | nan
  | str (s : String)
  | nullV
  | undef
  | obj
deriving DecidableEq, Repr

/-- Whitespace for the purposes of JavaScript string trimming. -/
def isSpaceChar (c : Char) : Bool :=
  c = ' ' || c = '\t' || c = '\n' || c = '\r'

/-- JavaScript String.trim on a character list. -/
def trimChars (cs : List Char) : List Char :=
  ((cs.dropWhile isSpaceChar).reverse.dropWhile isSpaceChar).reverse

/-- Does the second list start with the first? -/
def startsWithChars : List Char → List Char → Bool
  | [], _ => true
  | _ :: _, [] => false
  | p :: ps, x :: xs => p = x && startsWithChars ps xs

/-- Contiguous-infix test on character lists. -/
def infixChars (pat : List Char) : List Char → Bool
  | [] => pat.isEmpty
  | x :: xs => startsWithChars pat (x :: xs) || infixChars pat xs

/-- JavaScript s.includes(sub). -/
def containsSub (s sub : String) : Bool := infixChars sub.data s.data

/-- ASCII lower-casing of one character (the chain names are ASCII). -/
def lowerChar (c : Char) : Char :=
  if 'A' ≤ c ∧ c ≤ 'Z' then Char.ofNat (c.toNat + 32) else c

/-- JavaScript String.toLowerCase on the ASCII chain names. -/
def toLowerStr (s : String) : String := ⟨s.data.map lowerChar⟩

/-- Numeric value of a list of ASCII digit characters; none when the list
is empty or holds a non-digit. -/
def digitsToNat (cs : List Char) : Option ℕ :=
  if cs.isEmpty then none
  else
    cs.foldl
      (fun acc c =>
        match acc with
        | none => none
        | some a => if c.isDigit then some (a * 10 + (c.toNat - 48)) else none)
      (some 0)

/-- The digit content of a decimal literal: sign, integer digits,
fractional digits, and the number of fractional places. -/
structure DecScan where
  neg : Bool
  intPart : ℕ
  fracPart : ℕ
  fracLen : ℕ
deriving DecidableEq, Repr

/-- Scanning stage of the JavaScript Number(string) conversion on the
decimal literal forms the send flow produces (optional sign, digits, at
most one dot, optional surrounding spaces): none encodes NaN. Exponent
and hexadecimal forms are outside the modelled input domain. -/
def scanDecimal (s : String) : Option DecScan :=
  let cs := trimChars s.data
  if cs.isEmpty then some ⟨false, 0, 0, 0⟩
  else
    let neg : Bool := match cs with | '-' :: _ => true | _ => false
    let body := match cs with | '-' :: r => r | '+' :: r => r | r => r
    let intCs := body.takeWhile (fun c => c ≠ '.')
    let rest := body.dropWhile (fun c => c ≠ '.')
    match rest with
    | [] => (digitsToNat intCs).map (fun n => ⟨neg, n, 0, 0⟩)
    | '.' :: fracCs =>
      if fracCs.any (fun c => c = '.') then none
      else
        match intCs.isEmpty, fracCs.isEmpty with
        | true, true => none
        | true, false => (digitsToNat fracCs).map (fun fn => ⟨neg, 0, fn, fracCs.length⟩)
        | false, true => (digitsToNat intCs).map (fun n => ⟨neg, n, 0, 0⟩)
        | false, false =>
          match digitsToNat intCs, digitsToNat fracCs with
          | some n, some fn => some ⟨neg, n, fn, fracCs.length⟩
          | _, _ => none
    | _ => none

/-- The rational value of a scanned decimal literal. -/
def ratOfScan (d : DecScan) : ℚ :=
  let mag : ℚ := (d.intPart : ℚ) + (d.fracPart : ℚ) / (10 : ℚ) ^ d.fracLen
  if d.neg then -mag else mag

/-- The JavaScript Number(string) conversion on the modelled domain. -/
def jsStringToNumber (s : String) : Option ℚ :=
  (scanDecimal s).map ratOfScan

/-- JavaScript Number(v) conversion for the modelled values: null converts
to 0, undefined and plain objects to NaN, numbers to themselves. -/
def jsToNumber (v : JSVal) : Option ℚ :=
  match v with
  | .num q => some q
  | .nan => none
  | .str s => jsStringToNumber s
  | .nullV => some 0
  | .undef => none
  | .obj => none

/-- amount-engine.js safeParse: null for null/undefined/empty string or a
NaN conversion (NaN itself, a non-numeric string, a plain object);
negative numbers are clamped to 0. -/
def safeParse (val : JSVal) : Option ℚ :=
  match val with
  | .nullV => none
  | .undef => none
  | .nan => none
  | .obj => none
  | .num q => if q < 0 then some 0 else some q
  | .str s =>
    if s = "" then none
    else
      match jsStringToNumber s with
      | none => none
      | some num => if num < 0 then some 0 else some num

/-- JavaScript Math.round on an exact rational: floor of x + 1/2. -/
def jsMathRound (x : ℚ) : ℤ := ⌊x + 1 / 2⌋

/-- amount-engine.js safeRound on a non-null value: half-up rounding via
integer scaling, Math.round(value * 10^decimals) / 10^decimals. -/
def safeRound (value : ℚ) (decimals : ℕ) : ℚ :=
  let multiplier : ℚ := 10 ^ decimals
  (jsMathRound (value * multiplier) : ℚ) / multiplier

/-- The PRECISION configuration table of amount-engine.js. -/
def PRECISION.fiat : ℕ := 2

/-- PRECISION.eth. -/
def PRECISION.eth : ℕ := 6

/-- PRECISION.btc. -/
def PRECISION.btc : ℕ := 8

/-- PRECISION.sol. -/
def PRECISION.sol : ℕ := 6

/-- PRECISION.default. -/
def PRECISION.defaultDecimals : ℕ := 0

/-- The decimals selection inside roundAsset: lowercase the chain name,
then eth-family 6, btc-family 8, sol-family 6, anything else (a missing
or falsy chain included) 0. -/
def chainDecimals (chain : Option String) : ℕ :=
  match chain with
  | none => PRECISION.defaultDecimals
  | some ch =>
    if ch = "" then PRECISION.defaultDecimals
    else
      let c := toLowerStr ch
      if containsSub c "eth" then PRECISION.eth
      else if containsSub c "btc" || containsSub c "bitcoin" then PRECISION.btc
      else if containsSub c "sol" then PRECISION.sol
      else PRECISION.defaultDecimals

/-- amount-engine.js roundAsset: parse, then round to the chain-specific
precision. -/
def roundAsset (amount : JSVal) (chain : Option String) : Option ℚ :=
  match safeParse amount with
  | none => none
  | some val => some (safeRound val (chainDecimals chain))

/-- amount-engine.js roundFiat: parse, then round to 2 decimals. -/
def roundFiat (amount : JSVal) : Option ℚ :=
  match safeParse amount with
  | none => none
  | some val => some (safeRound val PRECISION.fiat)

/-- amount-engine.js deriveFromFiat: null unless both arguments parse and
the price is positive, 0 when the parsed amount is 0, otherwise the
quotient rounded to the chain precision. -/
def deriveFromFiat (fiatAmount assetPriceUSD : JSVal) (chain : Option String) : Option ℚ :=
  match safeParse fiatAmount, safeParse assetPriceUSD with
  | some amount, some price =>
    if price ≤ 0 then none
    else if amount = 0 then some 0
    else roundAsset (.num (amount / price)) chain
  | none, _ => none
  | some _, none => none

/-- amount-engine.js deriveFromAsset: null unless both arguments parse and
the price is positive, 0 when the parsed amount is 0, otherwise the
product rounded to 2 decimals. -/
def deriveFromAsset (assetAmount assetPriceUSD : JSVal) : Option ℚ :=
  match safeParse assetAmount, safeParse assetPriceUSD with
  | some amount, some price =>
    if price ≤ 0 then none
    else if amount = 0 then some 0
    else roundFiat (.num (amount * price))
  | none, _ => none
  | some _, none => none

/-- The JavaScript composition deriveFromAsset(deriveFromFiat(...), p)
passes a number or null; this injects that result back into JSVal. -/
def jsOfOpt (o : Option ℚ) : JSVal :=
  match o with
  | none => .nullV
  | some q => .num q

example : scanDecimal "100" = some ⟨false, 100, 0, 0⟩ := by decide
example : scanDecimal "2250.50" = some ⟨false, 2250, 50, 2⟩ := by decide
example : scanDecimal "abc" = none := by decide
example : safeParse (.str "100") = some 100 := by
  have h : scanDecimal "100" = some ⟨false, 100, 0, 0⟩ := by decide
  have hne : ("100" : String) ≠ "" := by decide
  norm_num [safeParse, jsToNumber, jsStringToNumber, h, hne, ratOfScan]
example : safeParse (.num (-5)) = some 0 := by decide
example : chainDecimals (some "Ethereum") = 6 := by decide
example : chainDecimals (some "Bitcoin") = 8 := by decide
example : chainDecimals (some "Solana") = 6 := by decide
example : chainDecimals (some "Arbitrum One") = 0 := by decide
example : deriveFromFiat (.str "100") (.num (4501 / 2)) (some "Ethereum")
    = some (44435 / 1000000) := by
  have h : scanDecimal "100" = some ⟨false, 100, 0, 0⟩ := by decide
  have hc : chainDecimals (some "Ethereum") = 6 := by decide
  have hne : ("100" : String) ≠ "" := by decide
  norm_num [deriveFromFiat, safeParse, jsToNumber, jsStringToNumber, h, hne, ratOfScan,
    roundAsset, hc, safeRound, jsMathRound]
example : deriveFromFiat (.str "0") (.num (4501 / 2)) (some "Ethereum") = some 0 := by
  have h : scanDecimal "0" = some ⟨false, 0, 0, 0⟩ := by decide
  have hne : ("0" : String) ≠ "" := by decide
  norm_num [deriveFromFiat, safeParse, jsToNumber, jsStringToNumber, h, hne, ratOfScan]
example : deriveFromFiat (.str "100") (.num 0) (some "Ethereum") = none := by
  have h : scanDecimal "100" = some ⟨false, 100, 0, 0⟩ := by decide
  have hne : ("100" : String) ≠ "" := by decide
  norm_num [deriveFromFiat, safeParse, jsToNumber, jsStringToNumber, h, hne, ratOfScan]

/-- Every value safeParse accepts is nonnegative: negatives are clamped. -/
theorem safeParse_nonneg {v : JSVal} {q : ℚ} (h : safeParse v = some q) : 0 ≤ q := by
  cases v with
  | num x =>
    simp only [safeParse] at h
    split_ifs at h with hx
    · exact le_of_eq (Option.some_inj.mp h)
    · exact (Option.some_inj.mp h) ▸ not_lt.mp hx
  | str s =>
    simp only [safeParse] at h
    split_ifs at h with hs
    rcases hJ : jsStringToNumber s with _ | n
    · rw [hJ] at h; exact absurd h (by simp)
    · rw [hJ] at h
      have h' : (if n < 0 then some 0 else some n) = some q := h
      split_ifs at h' with hn
      · exact le_of_eq (Option.some_inj.mp h')
      · exact (Option.some_inj.mp h') ▸ not_lt.mp hn
  | nan => exact absurd h (by simp [safeParse])
  | nullV => exact absurd h (by simp [safeParse])
  | undef => exact absurd h (by simp [safeParse])
  | obj => exact absurd h (by simp [safeParse])

/-- safeParse is the identity on nonnegative numbers. -/
theorem safeParse_num {q : ℚ} (hq : 0 ≤ q) : safeParse (.num q) = some q := by
  simp [safeParse, not_lt.mpr hq]

/-- The half-up rounding step is within half a unit. -/
theorem abs_jsMathRound_sub (x : ℚ) : |(jsMathRound x : ℚ) - x| ≤ 1 / 2 := by
  unfold jsMathRound
  rw [abs_le]
  constructor
  · have h := Int.sub_one_lt_floor (x + 1 / 2)
    have h2 : ((⌊x + 1 / 2⌋ : ℤ) : ℚ) > x + 1 / 2 - 1 := by exact_mod_cast h
    linarith
  · have h := Int.floor_le (x + 1 / 2)
    linarith

/-- safeRound is within half a unit in the last decimal place. -/
theorem abs_safeRound_sub (x : ℚ) (d : ℕ) :
    |safeRound x d - x| ≤ 1 / (2 * 10 ^ d) := by
  unfold safeRound
  have h10 : (0 : ℚ) < 10 ^ d := by positivity
  have hx : ((jsMathRound (x * 10 ^ d) : ℤ) : ℚ) / 10 ^ d - x
      = (((jsMathRound (x * 10 ^ d) : ℤ) : ℚ) - x * 10 ^ d) / 10 ^ d := by
    field_simp
    ring
  rw [hx, abs_div, abs_of_pos h10]
  rw [div_le_iff₀ h10]
  have h := abs_jsMathRound_sub (x * 10 ^ d)
  calc |((jsMathRound (x * 10 ^ d) : ℤ) : ℚ) - x * 10 ^ d| ≤ 1 / 2 := h
    _ = 1 / (2 * 10 ^ d) * 10 ^ d := by field_simp
    _ ≤ 1 / (2 * 10 ^ d) * 10 ^ d := le_refl _

/-- safeRound preserves nonnegativity. -/
theorem safeRound_nonneg {x : ℚ} (d : ℕ) (hx : 0 ≤ x) : 0 ≤ safeRound x d := by
  unfold safeRound jsMathRound
  have h10 : (0 : ℚ) < 10 ^ d := by positivity
  have hfl : (0 : ℤ) ≤ ⌊x * 10 ^ d + 1 / 2⌋ := by
    rw [Int.le_floor]
    push_cast
    nlinarith
  positivity

/-- safeRound of zero is zero. -/
theorem safeRound_zero (d : ℕ) : safeRound 0 d = 0 := by
  unfold safeRound jsMathRound
  norm_num

/-- roundAsset on a nonnegative number rounds at the chain precision. -/
theorem roundAsset_num {q : ℚ} (hq : 0 ≤ q) (c : Option String) :
    roundAsset (.num q) c = some (safeRound q (chainDecimals c)) := by
  simp [roundAsset, safeParse_num hq]

/-- roundFiat on a nonnegative number rounds at 2 decimals. -/
theorem roundFiat_num {q : ℚ} (hq : 0 ≤ q) :
    roundFiat (.num q) = some (safeRound q 2) := by
  simp [roundFiat, safeParse_num hq, PRECISION.fiat]

/-- C5: deriveFromFiat returns null unless both inputs parse and the
price is positive, returns 0 when the parsed fiat amount is 0, and
otherwise returns the quotient rounded at the chain precision. -/
theorem deriveFromFiat_spec :
    (∀ f p c, safeParse f = none → deriveFromFiat f p c = none) ∧
    (∀ f p c, safeParse p = none → deriveFromFiat f p c = none) ∧
    (∀ f p c pq, safeParse p = some pq → pq ≤ 0 → deriveFromFiat f p c = none) ∧
    (∀ f p c pq, safeParse p = some pq → 0 < pq → safeParse f = some 0 →
      deriveFromFiat f p c = some 0) ∧
    (∀ f p c a pq, safeParse f = some a → safeParse p = some pq → 0 < pq → a ≠ 0 →
      deriveFromFiat f p c = some (safeRound (a / pq) (chainDecimals c))) := by
  refine ⟨?_, ?_, ?_, ?_, ?_⟩
  · intro f p c h
    cases hP : safeParse p <;> simp [deriveFromFiat, h, hP]
  · intro f p c h
    cases hF : safeParse f <;> simp [deriveFromFiat, hF, h]
  · intro f p c pq hP hle
    cases hF : safeParse f <;> simp [deriveFromFiat, hF, hP, hle]
  · intro f p c pq hP hpos hF0
    simp [deriveFromFiat, hF0, hP, not_le.mpr hpos]
  · intro f p c a pq hF hP hpos ha0
    have han : 0 ≤ a := safeParse_nonneg hF
    have hdiv : 0 ≤ a / pq := div_nonneg han hpos.le
    simp [deriveFromFiat, hF, hP, not_le.mpr hpos, ha0, roundAsset_num hdiv]

/-- C5 witness: the zero short-circuit and the generic branch at concrete
inputs. -/
theorem deriveFromFiat_spec_witness :
    deriveFromFiat (.str "0") (.num 2000) (some "Ethereum") = some 0 ∧
    deriveFromFiat (.str "100") (.num 2000) (some "Ethereum")
      = some (safeRound (100 / 2000) (chainDecimals (some "Ethereum"))) := by
  have h0 : safeParse (.str "0") = some 0 := by
    have hs : scanDecimal "0" = some ⟨false, 0, 0, 0⟩ := by decide
    have hne : ("0" : String) ≠ "" := by decide
    norm_num [safeParse, jsStringToNumber, hs, hne, ratOfScan]
  have h100 : safeParse (.str "100") = some 100 := by
    have hs : scanDecimal "100" = some ⟨false, 100, 0, 0⟩ := by decide
    have hne : ("100" : String) ≠ "" := by decide
    norm_num [safeParse, jsStringToNumber, hs, hne, ratOfScan]
  have hp : safeParse (.num 2000) = some 2000 := safeParse_num (by norm_num)
  exact ⟨deriveFromFiat_spec.2.2.2.1 _ _ _ 2000 hp (by norm_num) h0,
    deriveFromFiat_spec.2.2.2.2 _ _ _ 100 2000 h100 hp (by norm_num) (by norm_num)⟩

/-- C6 counterexample: a negative value is a malformed input in the
claim's list, yet parse and both derivations return 0 rather than null
(safeParse clamps negatives to 0). -/
theorem safeParse_negative_cex :
    safeParse (.num (-5)) = some 0 ∧
    deriveFromFiat (.num (-5)) (.num 2000) (some "Ethereum") = some 0 ∧
    deriveFromAsset (.num (-5)) (.num 2000) = some 0 := by
  refine ⟨by decide, ?_, ?_⟩ <;>
    simp [deriveFromFiat, deriveFromAsset, safeParse] <;> norm_num

/-- C6 amended: no function of the numeric core can throw (all are total
Option-valued functions); NaN, undefined, objects, and empty or
non-numeric strings yield null through parse and both derivations, while
negative values are clamped to 0 by parse instead of yielding null. -/
theorem engine_null_discipline :
    (safeParse .nan = none ∧ safeParse .undef = none ∧ safeParse .obj = none ∧
      safeParse (.str "") = none) ∧
    (∀ s, jsStringToNumber s = none → safeParse (.str s) = none) ∧
    (∀ q : ℚ, q < 0 → safeParse (.num q) = some 0) ∧
    (∀ v w c, safeParse v = none → deriveFromFiat v w c = none) ∧
    (∀ v w c, safeParse w = none → deriveFromFiat v w c = none) ∧
    (∀ v w, safeParse v = none → deriveFromAsset v w = none) ∧
    (∀ v w, safeParse w = none → deriveFromAsset v w = none) := by
  refine ⟨⟨by decide, by decide, by decide, by decide⟩, ?_, ?_, ?_, ?_, ?_, ?_⟩
  · intro s h
    by_cases hs : s = ""
    · subst hs; decide
    · simp [safeParse, hs, h]
  · intro q hq
    simp [safeParse, hq]
  · intro v w c h
    cases hP : safeParse w <;> simp [deriveFromFiat, h, hP]
  · intro v w c h
    cases hF : safeParse v <;> simp [deriveFromFiat, hF, h]
  · intro v w h
    cases hP : safeParse w <;> simp [deriveFromAsset, h, hP]
  · intro v w h
    cases hF : safeParse v <;> simp [deriveFromAsset, hF, h]

/-- C6 amended witness: concrete malformed inputs. -/
theorem engine_null_discipline_witness :
    safeParse (.str "abc") = none ∧
    safeParse (.num (-3)) = some 0 ∧
    deriveFromFiat .undef (.num 1) none = none ∧
    deriveFromAsset (.str "1e5x") (.num 1) = none := by
  refine ⟨engine_null_discipline.2.1 "abc" (by decide), ?_, ?_, ?_⟩
  · exact engine_null_discipline.2.2.1 (-3) (by norm_num)
  · exact engine_null_discipline.2.2.2.1 _ _ _ (by decide)
  · exact engine_null_discipline.2.2.2.2.2.1 _ _
      (engine_null_discipline.2.1 "1e5x" (by decide))

/-- ETH-family membership exactly as tested by the engine: the
lower-cased chain name contains the substring eth. -/
def ethFamily (ch : String) : Bool := containsSub (toLowerStr ch) "eth"

/-- BTC-family membership exactly as tested by the engine: the
lower-cased chain name contains btc or bitcoin. -/
def btcFamily (ch : String) : Bool :=
  containsSub (toLowerStr ch) "btc" || containsSub (toLowerStr ch) "bitcoin"

/-- SOL-family membership exactly as tested by the engine. -/
def solFamily (ch : String) : Bool := containsSub (toLowerStr ch) "sol"

/-- C7: the precision used by asset rounding is 6 for ETH-family chains,
8 for BTC-family chains that are not also ETH-family, 6 for SOL-family
chains that are in neither of the other families, and 0 for null or
unrecognized chains; asset rounding uses exactly this precision. The
family tests are applied in the engine's precedence order (eth before
btc before sol), which is immaterial for every chain name lying in a
single family. -/
theorem chain_decimals_spec :
    chainDecimals none = 0 ∧
    (∀ ch, ethFamily ch = true → chainDecimals (some ch) = 6) ∧
    (∀ ch, ethFamily ch = false → btcFamily ch = true → chainDecimals (some ch) = 8) ∧
    (∀ ch, ethFamily ch = false → btcFamily ch = false → solFamily ch = true →
      chainDecimals (some ch) = 6) ∧
    (∀ ch, ethFamily ch = false → btcFamily ch = false → solFamily ch = false →
      chainDecimals (some ch) = 0) ∧
    (∀ (q : ℚ) (c : Option String), 0 ≤ q →
      roundAsset (.num q) c = some (safeRound q (chainDecimals c))) := by
  refine ⟨by decide, ?_, ?_, ?_, ?_, fun q c hq => roundAsset_num hq c⟩
  · intro ch h
    by_cases hch : ch = ""
    · subst hch; exact absurd h (by decide)
    · simp only [ethFamily] at h
      simp [chainDecimals, hch, h, PRECISION.eth]
  · intro ch h hb
    by_cases hch : ch = ""
    · subst hch; exact absurd hb (by decide)
    · simp only [ethFamily] at h
      simp only [btcFamily] at hb
      simp [chainDecimals, hch, h, hb, PRECISION.btc]
  · intro ch h hb hs
    by_cases hch : ch = ""
    · subst hch; exact absurd hs (by decide)
    · simp only [ethFamily] at h
      simp only [btcFamily, Bool.or_eq_false_iff] at hb
      simp only [solFamily] at hs
      simp [chainDecimals, hch, h, hb.1, hb.2, hs, PRECISION.sol]
  · intro ch h hb hs
    by_cases hch : ch = ""
    · subst hch; simp [chainDecimals, PRECISION.defaultDecimals]
    · simp only [ethFamily] at h
      simp only [btcFamily, Bool.or_eq_false_iff] at hb
      simp only [solFamily] at hs
      simp [chainDecimals, hch, h, hb.1, hb.2, hs, PRECISION.defaultDecimals]

/-- C7 witness: the three concrete chain names and a concrete rounding. -/
theorem chain_decimals_spec_witness :
    chainDecimals (some "Ethereum") = 6 ∧
    chainDecimals (some "Bitcoin") = 8 ∧
    chainDecimals (some "Solana") = 6 ∧
    chainDecimals (some "Arbitrum One") = 0 ∧
    roundAsset (.num (3 / 2)) (some "Bitcoin") = some (safeRound (3 / 2) (chainDecimals (some "Bitcoin"))) := by
  refine ⟨chain_decimals_spec.2.1 "Ethereum" (by decide),
    chain_decimals_spec.2.2.1 "Bitcoin" (by decide) (by decide),
    chain_decimals_spec.2.2.2.1 "Solana" (by decide) (by decide) (by decide),
    chain_decimals_spec.2.2.2.2.1 "Arbitrum One" (by decide) (by decide) (by decide),
    chain_decimals_spec.2.2.2.2.2 (3 / 2) (some "Bitcoin") (by norm_num)⟩

/-- C1 counterexample: with fiat amount 100, price 10^9 and chain
Ethereum, the derived asset amount rounds to 0 at 6 decimals, so the
round trip returns 0 while round(100, 2) = 100 — off by 100, far beyond
one unit (10^-6) of rounding error at the chain's decimal precision. -/
theorem roundTrip_price_cex :
    deriveFromFiat (.str "100") (.num 1000000000) (some "Ethereum") = some 0 ∧
    deriveFromAsset
      (jsOfOpt (deriveFromFiat (.str "100") (.num 1000000000) (some "Ethereum")))
      (.num 1000000000) = some 0 ∧
    roundFiat (.str "100") = some 100 ∧
    ¬|(0 : ℚ) - 100| ≤ 1 / 10 ^ chainDecimals (some "Ethereum") := by
  have hs : scanDecimal "100" = some ⟨false, 100, 0, 0⟩ := by decide
  have hne : ("100" : String) ≠ "" := by decide
  have hc : chainDecimals (some "Ethereum") = 6 := by decide
  have h1 : deriveFromFiat (.str "100") (.num 1000000000) (some "Ethereum") = some 0 := by
    norm_num [deriveFromFiat, safeParse, jsStringToNumber, hs, hne, ratOfScan,
      roundAsset, hc, safeRound, jsMathRound]
  refine ⟨h1, ?_, ?_, ?_⟩
  · rw [h1]
    norm_num [jsOfOpt, deriveFromAsset, safeParse]
  · norm_num [roundFiat, safeParse, jsStringToNumber, hs, hne, ratOfScan,
      PRECISION.fiat, safeRound, jsMathRound]
  · rw [hc]; norm_num

/-- C1 amended: for every nonnegative fiat amount and positive price the
round trip deriveFromAsset(deriveFromFiat(f, p, chain), p) is defined and
agrees with round(f, 2) to within one unit of fiat rounding error (1/100)
plus half a unit of the chain's decimal precision scaled by the price
(p/2 * 10^-d). The price factor is forced: the counterexample shows the
distance grows linearly with the price. -/
theorem roundTrip_bound_amended (f p : ℚ) (c : Option String)
    (hf : 0 ≤ f) (hp : 0 < p) :
    ∃ a r, deriveFromFiat (.num f) (.num p) c = some a ∧
      deriveFromAsset (.num a) (.num p) = some r ∧
      roundFiat (.num f) = some (safeRound f 2) ∧
      |r - safeRound f 2| ≤ p / 2 * (1 / 10 ^ chainDecimals c) + 1 / 100 := by
  have hdivnn : 0 ≤ f / p := div_nonneg hf hp.le
  refine ⟨safeRound (f / p) (chainDecimals c), safeRound (safeRound (f / p) (chainDecimals c) * p) 2,
    ?_, ?_, roundFiat_num hf, ?_⟩
  · by_cases hf0 : f = 0
    · subst hf0
      simp [deriveFromFiat, safeParse_num le_rfl, safeParse_num hp.le, not_le.mpr hp,
        zero_div, safeRound_zero]
    · simp [deriveFromFiat, safeParse_num hf, safeParse_num hp.le, not_le.mpr hp, hf0,
        roundAsset_num hdivnn]
  · set a := safeRound (f / p) (chainDecimals c) with ha
    have hann : 0 ≤ a := safeRound_nonneg _ hdivnn
    by_cases ha0 : a = 0
    · rw [ha0]
      simp [deriveFromAsset, safeParse_num le_rfl, safeParse_num hp.le, not_le.mpr hp,
        zero_mul, safeRound_zero]
    · simp [deriveFromAsset, safeParse_num hann, safeParse_num hp.le, not_le.mpr hp, ha0,
        roundFiat_num (mul_nonneg hann hp.le)]
  · set d := chainDecimals c with hd
    set a := safeRound (f / p) d with ha
    have h1 : |a - f / p| ≤ 1 / (2 * 10 ^ d) := abs_safeRound_sub (f / p) d
    have h2 : |safeRound (a * p) 2 - a * p| ≤ 1 / (2 * 10 ^ (2 : ℕ)) := abs_safeRound_sub (a * p) 2
    have h3 : |safeRound f 2 - f| ≤ 1 / (2 * 10 ^ (2 : ℕ)) := abs_safeRound_sub f 2
    have hap : |a * p - f| ≤ 1 / (2 * 10 ^ d) * p := by
      have : a * p - f = (a - f / p) * p := by field_simp
      rw [this, abs_mul, abs_of_pos hp]
      exact mul_le_mul_of_nonneg_right h1 hp.le
    have htri : |safeRound (a * p) 2 - safeRound f 2|
        ≤ |safeRound (a * p) 2 - a * p| + |a * p - f| + |f - safeRound f 2| := by
      calc |safeRound (a * p) 2 - safeRound f 2|
          ≤ |safeRound (a * p) 2 - f| + |f - safeRound f 2| := abs_sub_le _ _ _
        _ ≤ (|safeRound (a * p) 2 - a * p| + |a * p - f|) + |f - safeRound f 2| := by
            have := abs_sub_le (safeRound (a * p) 2) (a * p) f
            linarith
    have hfs : |f - safeRound f 2| = |safeRound f 2 - f| := abs_sub_comm _ _
    have hpow : (0 : ℚ) < 10 ^ d := by positivity
    have hfin : 1 / (2 * 10 ^ d) * p = p / 2 * (1 / 10 ^ d) := by field_simp
    calc |safeRound (a * p) 2 - safeRound f 2|
        ≤ |safeRound (a * p) 2 - a * p| + |a * p - f| + |f - safeRound f 2| := htri
      _ ≤ 1 / (2 * 10 ^ (2 : ℕ)) + 1 / (2 * 10 ^ d) * p + 1 / (2 * 10 ^ (2 : ℕ)) := by
          rw [hfs]; exact add_le_add (add_le_add h2 hap) h3
      _ = p / 2 * (1 / 10 ^ d) + 1 / 100 := by rw [hfin]; ring
  
/-- C1 amended witness: the bound at the spec's concrete scenario
(fiat 100, price 2250.50, chain Ethereum). -/
theorem roundTrip_bound_amended_witness :
    ∃ a r, deriveFromFiat (.num 100) (.num (4501 / 2)) (some "Ethereum") = some a ∧
      deriveFromAsset (.num a) (.num (4501 / 2)) = some r ∧
      roundFiat (.num 100) = some (safeRound 100 2) ∧
      |r - safeRound 100 2| ≤ (4501 / 2) / 2 * (1 / 10 ^ chainDecimals (some "Ethereum")) + 1 / 100 :=
  roundTrip_bound_amended 100 (4501 / 2) (some "Ethereum") (by norm_num) (by norm_num)

/-!
The Mirror Synchronizer and its surrounding UI state (send.js). The DOM
state the synchronizer reads and writes is modelled as one record:
APP_STATE.asset / APP_STATE.chain / APP_STATE.inputMode, the blocker
lock, DATA_STATE.assetPriceUSD (none models null and NaN, some 0 the
other falsy price), VALIDATION_STATE.isAddressValid, the two field
values (usdIndex input value and the asset display textContent), their
state-neutral classes, and which of the two fields holds the document
focus. Purely visual effects (font scaling, caret placement, css
classes other than state-neutral) have no bearing on the claims and are
not part of the state.
-/

/-- APP_STATE.inputMode. -/
inductive AuthorityMode where
  | fiat
  | asset
deriving DecidableEq, Repr

/-- Which of the two amount fields holds document focus. -/
inductive FocusTarget where
  | fiatField
  | assetField
deriving DecidableEq, Repr

/-- The modelled send-screen state. -/
structure MirrorState where
  asset : Option String
  chain : Option String
  inputMode : AuthorityMode
  isLocked : Bool
  assetPriceUSD : Option ℚ
  isAddressValid : Bool
  fiatValue : String
  assetValue : String
  fiatNeutral : Bool
  assetNeutral : Bool
  focused : Option FocusTarget
deriving DecidableEq, Repr

/-- JavaScript parseFloat on the modelled domain: longest decimal run
after optional whitespace and sign; NaN (none) when no digit is read. -/
def jsParseFloat (s : String) : Option ℚ :=
  let cs := s.data.dropWhile isSpaceChar
  let neg : Bool := match cs with | '-' :: _ => true | _ => false
  let body := match cs with | '-' :: r => r | '+' :: r => r | r => r
  let intCs := body.takeWhile Char.isDigit
  let afterInt := body.drop intCs.length
  let fracCs := match afterInt with
    | '.' :: r => r.takeWhile Char.isDigit
    | _ => []
  if intCs.isEmpty && fracCs.isEmpty then none
  else
    let iv : ℚ := ((digitsToNat intCs).getD 0 : ℕ)
    let fv : ℚ := (((digitsToNat fracCs).getD 0 : ℕ) : ℚ) / (10 : ℚ) ^ fracCs.length
    some ((if neg then -1 else 1) * (iv + fv))

/-- Remove the first occurrence of pat, as JavaScript replace(pat, empty
string) does. -/
def removeFirst (cs pat : List Char) : List Char :=
  match cs with
  | [] => []
  | x :: xs =>
    if startsWithChars pat (x :: xs) then (x :: xs).drop pat.length
    else x :: removeFirst xs pat

/-- The first-dot split performed by setVisualValue: parts[0] and
parts[1] of value.split(dot). -/
def splitDot (s : String) : Option (List Char × List Char) :=
  let cs := s.data
  let p0 := cs.takeWhile (fun c => c ≠ '.')
  let rest := cs.dropWhile (fun c => c ≠ '.')
  match rest with
  | '.' :: r => some (p0, r.takeWhile (fun c => c ≠ '.'))
  | _ => none

/-- setVisualValue's decimal discipline: cap the displayed fractional
digits at 6 (parts[0] + dot + parts[1].substring(0, 6)); every other
value passes through unchanged. -/
def capSixDecimals (s : String) : String :=
  match splitDot s with
  | some (p0, p1) => if p1.length > 6 then ⟨p0 ++ '.' :: p1.take 6⟩ else s
  | none => s

/-- One decimal digit as a character. -/
def digitChar (d : ℕ) : Char := Char.ofNat (48 + d)

/-- The first n digits of the fractional expansion of q. -/
def fracDigits : ℚ → ℕ → List ℕ
  | _, 0 => []
  | q, n + 1 =>
    let q10 := q * 10
    (⌊q10⌋).toNat :: fracDigits (q10 - ⌊q10⌋) n

/-- Drop trailing zero digits. -/
def stripZeros (ds : List ℕ) : List ℕ :=
  (ds.reverse.dropWhile (fun d => d == 0)).reverse

/-- The plain decimal string of a derived amount, as safeDecimalString
renders a number without scientific notation (idealised decimal
rendering at up to 20 fractional places, mirroring the code's
maximumFractionDigits bound). -/
def ratToDecimalString (q : ℚ) : String :=
  let sign : List Char := if q < 0 then ['-'] else []
  let aq := |q|
  let ip := (⌊aq⌋).toNat
  let ds := stripZeros (fracDigits (aq - ⌊aq⌋) 20)
  ⟨sign ++ (toString ip).data ++ (if ds.isEmpty then [] else '.' :: ds.map digitChar)⟩

/-- JavaScript toFixed(2) on the derived fiat amount. -/
def toFixed2 (q : ℚ) : String :=
  let n := (jsMathRound (|q| * 100)).toNat
  let sign : List Char := if q < 0 then ['-'] else []
  ⟨sign ++ (toString (n / 100)).data ++
    '.' :: ((if n % 100 < 10 then ['0'] else []) ++ (toString (n % 100)).data)⟩

/-- The else-branch of the fiat-authority pass (derived null or not
positive): neutral sentinel when the fiat text is empty or parses to 0
while the address is invalid, a plain 0 otherwise; either write is
skipped when the asset field is focused. -/
def fiatNeutralBranch (s : MirrorState) : MirrorState :=
  if (s.fiatValue = "" ∨ jsParseFloat s.fiatValue = some 0) ∧ s.isAddressValid = false then
    if s.focused = some .assetField then s
    else { s with assetValue := "— —", assetNeutral := true }
  else
    if s.focused = some .assetField then s
    else { s with assetValue := capSixDecimals "0", assetNeutral := false }

/-- The fiat-authority branch of updateAmountMirror: read the fiat
value, derive the asset amount, and write the asset display unless it is
focused. -/
def fiatAuthorityPass (s : MirrorState) (price : ℚ) : MirrorState :=
  match deriveFromFiat (.str s.fiatValue) (.num price) s.chain with
  | some d =>
    if 0 < d then
      if s.focused = some .assetField then s
      else { s with assetValue := capSixDecimals (ratToDecimalString d), assetNeutral := false }
    else fiatNeutralBranch s
  | none => fiatNeutralBranch s

/-- The asset-authority branch of updateAmountMirror: strip the sentinel
from the asset text, derive the fiat amount, and write the fiat input
(toFixed(2) on success, the empty string on null). -/
def assetAuthorityPass (s : MirrorState) (price : ℚ) : MirrorState :=
  let assetVal : String := ⟨trimChars (removeFirst s.assetValue.data "— —".data)⟩
  match deriveFromAsset (.str assetVal) (.num price) with
  | some d =>
    { s with
        fiatValue := capSixDecimals (toFixed2 d)
        fiatNeutral := false
        assetNeutral := false }
  | none => { s with fiatValue := "", fiatNeutral := false }

/-- updateAmountMirror: abort when the asset or price prerequisite is
falsy, then run the pass of the current authority mode. -/
def updateAmountMirror (s : MirrorState) : MirrorState :=
  if s.asset = none ∨ s.asset = some "" ∨ s.assetPriceUSD = none ∨ s.assetPriceUSD = some 0 then s
  else
    match s.inputMode with
    | .fiat => fiatAuthorityPass s (s.assetPriceUSD.getD 0)
    | .asset => assetAuthorityPass s (s.assetPriceUSD.getD 0)

/-- handleSingleClick plus updateBlockedState: flip the blocked side
(that is, the authority mode) unless locked; entering asset authority
focuses the asset display (a focus the gating layer blurs again when the
address is invalid) and clears a displayed neutral sentinel; entering
fiat authority focuses the fiat input. No amount recalculation is run
(the updateAmountMirror call is disabled in the source). -/
def toggleAuthority (s : MirrorState) : MirrorState :=
  if s.isLocked then s
  else
    match s.inputMode with
    | .fiat =>
      let s1 : MirrorState :=
        { s with
            inputMode := .asset
            focused := if s.isAddressValid then some .assetField else none }
      if s1.assetValue.data.contains '—' then { s1 with assetValue := "", assetNeutral := false }
      else s1
    | .asset =>
      { s with
          inputMode := .fiat
          focused := if s.isAddressValid then some .fiatField else none }

/-- When the asset field is focused the neutral branch is a no-op. -/
theorem fiatNeutralBranch_focused (s : MirrorState)
    (hf : s.focused = some .assetField) : fiatNeutralBranch s = s := by
  unfold fiatNeutralBranch
  simp [hf]

/-- When the asset field is focused the whole fiat-authority pass is a
no-op. -/
theorem fiatAuthorityPass_focused (s : MirrorState) (price : ℚ)
    (hf : s.focused = some .assetField) : fiatAuthorityPass s price = s := by
  unfold fiatAuthorityPass
  rcases hD : deriveFromFiat (.str s.fiatValue) (.num price) s.chain with _ | d
  · exact fiatNeutralBranch_focused s hf
  · by_cases h1 : 0 < d
    · simp [h1, hf]
    · simp only [if_neg h1]
      exact fiatNeutralBranch_focused s hf

/-- C2: with the asset field focused, a fiat-authoritative synchronizer
invocation leaves the asset field's raw value (and its neutral marker)
unchanged on every code path. -/
theorem mirror_write_barrier_asset_focused (s : MirrorState)
    (hf : s.focused = some .assetField) (hm : s.inputMode = .fiat) :
    (updateAmountMirror s).assetValue = s.assetValue ∧
    (updateAmountMirror s).assetNeutral = s.assetNeutral := by
  unfold updateAmountMirror
  split_ifs with hpre
  · exact ⟨rfl, rfl⟩
  · have hP := fiatAuthorityPass_focused s (s.assetPriceUSD.getD 0) hf
    simp only [hm]
    rw [hP]
    exact ⟨rfl, rfl⟩

/-- A concrete state for the write-barrier witness: fiat mode, asset
field focused mid-edit. -/
def barrierState : MirrorState :=
  { asset := some "eth"
    chain := some "Ethereum"
    inputMode := .fiat
    isLocked := false
    assetPriceUSD := some 2000
    isAddressValid := true
    fiatValue := ""
    assetValue := "1.2"
    fiatNeutral := false
    assetNeutral := false
    focused := some .assetField }

/-- C2 witness. -/
theorem mirror_write_barrier_asset_focused_witness :
    (updateAmountMirror barrierState).assetValue = barrierState.assetValue ∧
    (updateAmountMirror barrierState).assetNeutral = barrierState.assetNeutral :=
  mirror_write_barrier_asset_focused barrierState rfl rfl

/-- A concrete state showing the sentinel is cleared by a toggle: fiat
mode, asset display in the neutral sentinel state. -/
def sentinelState : MirrorState :=
  { asset := some "eth"
    chain := some "Ethereum"
    inputMode := .fiat
    isLocked := false
    assetPriceUSD := some 2000
    isAddressValid := false
    fiatValue := ""
    assetValue := "— —"
    fiatNeutral := false
    assetNeutral := true
    focused := none }

/-- C3 counterexample: toggling authority from fiat to asset while the
asset field shows the neutral sentinel clears the asset raw value to the
empty string, so the toggle does change assetRaw. -/
theorem toggle_clears_sentinel_cex :
    sentinelState.assetValue = "— —" ∧
    (toggleAuthority sentinelState).assetValue = "" ∧
    (toggleAuthority sentinelState).assetValue ≠ sentinelState.assetValue := by decide

/-- C3 amended: toggling the authority mode never changes the fiat raw
value, and leaves the asset raw value unchanged except in exactly one
case: an unlocked toggle out of fiat mode (into asset authority) while
the asset display holds the em-dash sentinel clears it to the empty
string. -/
theorem toggle_authority_value_purity (s : MirrorState) :
    (toggleAuthority s).fiatValue = s.fiatValue ∧
    (toggleAuthority s).assetValue =
      (if s.isLocked = false ∧ s.inputMode = .fiat ∧ '—' ∈ s.assetValue.data
       then "" else s.assetValue) := by
  unfold toggleAuthority
  by_cases hl : s.isLocked
  · simp [hl]
  · cases hm : s.inputMode
    · by_cases hc : '—' ∈ s.assetValue.data
      · simp [hl, hm, hc]
      · simp [hl, hm, hc]
    · simp [hl, hm]

/-- The neutral branch writes only the asset display and its neutral
marker. -/
theorem fiatNeutralBranch_frame (s : MirrorState) :
    (fiatNeutralBranch s).asset = s.asset ∧
    (fiatNeutralBranch s).chain = s.chain ∧
    (fiatNeutralBranch s).inputMode = s.inputMode ∧
    (fiatNeutralBranch s).assetPriceUSD = s.assetPriceUSD ∧
    (fiatNeutralBranch s).isAddressValid = s.isAddressValid ∧
    (fiatNeutralBranch s).fiatValue = s.fiatValue ∧
    (fiatNeutralBranch s).focused = s.focused := by
  unfold fiatNeutralBranch
  split_ifs <;> simp

/-- The fiat-authority pass writes only the asset display and its
neutral marker. -/
theorem fiatAuthorityPass_frame (s : MirrorState) (price : ℚ) :
    (fiatAuthorityPass s price).asset = s.asset ∧
    (fiatAuthorityPass s price).chain = s.chain ∧
    (fiatAuthorityPass s price).inputMode = s.inputMode ∧
    (fiatAuthorityPass s price).assetPriceUSD = s.assetPriceUSD ∧
    (fiatAuthorityPass s price).isAddressValid = s.isAddressValid ∧
    (fiatAuthorityPass s price).fiatValue = s.fiatValue ∧
    (fiatAuthorityPass s price).focused = s.focused := by
  unfold fiatAuthorityPass
  rcases hD : deriveFromFiat (.str s.fiatValue) (.num price) s.chain with _ | d
  · exact fiatNeutralBranch_frame s
  · by_cases h1 : 0 < d
    · by_cases h2 : s.focused = some FocusTarget.assetField
      · simp [h1, h2]
      · simp [h1, h2]
    · simp only [if_neg h1]
      exact fiatNeutralBranch_frame s

/-- The asset-authority pass writes only the fiat input, its neutral
marker, and the asset neutral marker. -/
theorem assetAuthorityPass_frame (s : MirrorState) (price : ℚ) :
    (assetAuthorityPass s price).asset = s.asset ∧
    (assetAuthorityPass s price).chain = s.chain ∧
    (assetAuthorityPass s price).inputMode = s.inputMode ∧
    (assetAuthorityPass s price).assetPriceUSD = s.assetPriceUSD ∧
    (assetAuthorityPass s price).isAddressValid = s.isAddressValid ∧
    (assetAuthorityPass s price).assetValue = s.assetValue ∧
    (assetAuthorityPass s price).focused = s.focused := by
  unfold assetAuthorityPass
  rcases hD : deriveFromAsset
      (.str ⟨trimChars (removeFirst s.assetValue.data "— —".data)⟩) (.num price) with _ | d <;>
    simp [hD]

/-- The neutral branch is idempotent. -/
theorem fiatNeutralBranch_idem (s : MirrorState) :
    fiatNeutralBranch (fiatNeutralBranch s) = fiatNeutralBranch s := by
  by_cases hfoc : s.focused = some FocusTarget.assetField
  · rw [fiatNeutralBranch_focused s hfoc, fiatNeutralBranch_focused s hfoc]
  · by_cases hc : (s.fiatValue = "" ∨ jsParseFloat s.fiatValue = some 0) ∧ s.isAddressValid = false
    · simp [fiatNeutralBranch, hfoc, hc]
    · simp [fiatNeutralBranch, hfoc, hc]

/-- The fiat-authority pass is idempotent: its writes never feed back
into what it reads. -/
theorem fiatAuthorityPass_idem (s : MirrorState) (price : ℚ) :
    fiatAuthorityPass (fiatAuthorityPass s price) price = fiatAuthorityPass s price := by
  by_cases hfoc : s.focused = some FocusTarget.assetField
  · rw [fiatAuthorityPass_focused s price hfoc, fiatAuthorityPass_focused s price hfoc]
  · rcases hD : deriveFromFiat (.str s.fiatValue) (.num price) s.chain with _ | d
    · have hchar : fiatAuthorityPass s price = fiatNeutralBranch s := by
        unfold fiatAuthorityPass
        simp only [hD]
      rw [hchar]
      obtain ⟨g1, g2, g3, g4, g5, g6, g7⟩ := fiatNeutralBranch_frame s
      unfold fiatAuthorityPass
      simp only [g6, g2, hD]
      exact fiatNeutralBranch_idem s
    · by_cases hd : 0 < d
      · have hchar : fiatAuthorityPass s price
            = { s with assetValue := capSixDecimals (ratToDecimalString d), assetNeutral := false } := by
          unfold fiatAuthorityPass
          simp [hD, hd, hfoc]
        rw [hchar]
        unfold fiatAuthorityPass
        simp [hD, hd, hfoc]
      · have hchar : fiatAuthorityPass s price = fiatNeutralBranch s := by
          unfold fiatAuthorityPass
          simp only [hD, if_neg hd]
        rw [hchar]
        obtain ⟨g1, g2, g3, g4, g5, g6, g7⟩ := fiatNeutralBranch_frame s
        unfold fiatAuthorityPass
        simp only [g6, g2, hD, if_neg hd]
        exact fiatNeutralBranch_idem s

/-- The asset-authority pass is idempotent. -/
theorem assetAuthorityPass_idem (s : MirrorState) (price : ℚ) :
    assetAuthorityPass (assetAuthorityPass s price) price = assetAuthorityPass s price := by
  rcases hD : deriveFromAsset
      (.str ⟨trimChars (removeFirst s.assetValue.data "— —".data)⟩) (.num price) with _ | d
  · have hchar : assetAuthorityPass s price = { s with fiatValue := "", fiatNeutral := false } := by
      unfold assetAuthorityPass
      simp only [hD]
    rw [hchar]
    unfold assetAuthorityPass
    simp only [hD]
  · have hchar : assetAuthorityPass s price
        = { s with fiatValue := capSixDecimals (toFixed2 d), fiatNeutral := false, assetNeutral := false } := by
      unfold assetAuthorityPass
      simp only [hD]
    rw [hchar]
    unfold assetAuthorityPass
    simp only [hD]

/-- C8: the synchronizer entry point is idempotent — a second immediate
invocation reproduces exactly the state after the first (the source even
relies on this, calling it twice in a row after an asset change). -/
theorem updateAmountMirror_idempotent (s : MirrorState) :
    updateAmountMirror (updateAmountMirror s) = updateAmountMirror s := by
  by_cases hpre : s.asset = none ∨ s.asset = some "" ∨ s.assetPriceUSD = none ∨
      s.assetPriceUSD = some 0
  · have h : updateAmountMirror s = s := by
      unfold updateAmountMirror
      rw [if_pos hpre]
    rw [h, h]
  · rcases hPo : s.assetPriceUSD with _ | p
    · exact absurd (Or.inr (Or.inr (Or.inl hPo))) hpre
    · cases hm : s.inputMode
      · -- fiat authority
        have h1 : updateAmountMirror s = fiatAuthorityPass s p := by
          unfold updateAmountMirror
          rw [if_neg hpre]
          simp only [hm, hPo, Option.getD_some]
        obtain ⟨f1, f2, f3, f4, f5, f6, f7⟩ := fiatAuthorityPass_frame s p
        have hpre1 : ¬((fiatAuthorityPass s p).asset = none ∨
            (fiatAuthorityPass s p).asset = some "" ∨
            (fiatAuthorityPass s p).assetPriceUSD = none ∨
            (fiatAuthorityPass s p).assetPriceUSD = some 0) := by
          simp only [f1, f4]
          exact hpre
        have h2 : updateAmountMirror (fiatAuthorityPass s p)
            = fiatAuthorityPass (fiatAuthorityPass s p) p := by
          unfold updateAmountMirror
          rw [if_neg hpre1]
          simp only [f3, hm, f4, hPo, Option.getD_some]
        rw [h1, h2, fiatAuthorityPass_idem s p]
      · -- asset authority
        have h1 : updateAmountMirror s = assetAuthorityPass s p := by
          unfold updateAmountMirror
          rw [if_neg hpre]
          simp only [hm, hPo, Option.getD_some]
        obtain ⟨f1, f2, f3, f4, f5, f6, f7⟩ := assetAuthorityPass_frame s p
        have hpre1 : ¬((assetAuthorityPass s p).asset = none ∨
            (assetAuthorityPass s p).asset = some "" ∨
            (assetAuthorityPass s p).assetPriceUSD = none ∨
            (assetAuthorityPass s p).assetPriceUSD = some 0) := by
          simp only [f1, f4]
          exact hpre
        have h2 : updateAmountMirror (assetAuthorityPass s p)
            = assetAuthorityPass (assetAuthorityPass s p) p := by
          unfold updateAmountMirror
          rw [if_neg hpre1]
          simp only [f3, hm, f4, hPo, Option.getD_some]
        rw [h1, h2, assetAuthorityPass_idem s p]

/-- toFixed2 always renders a dot. -/
theorem dot_mem_toFixed2 (q : ℚ) : '.' ∈ (toFixed2 q).data := by
  unfold toFixed2
  simp [List.mem_append]

/-- Capping the displayed decimals keeps the dot. -/
theorem dot_mem_capSixDecimals {t : String} (h : '.' ∈ t.data) :
    '.' ∈ (capSixDecimals t).data := by
  unfold capSixDecimals
  rcases hS : splitDot t with _ | ⟨p0, p1⟩
  · exact h
  · by_cases hl : p1.length > 6
    · simp [hl, List.mem_append]
    · simp [hl, h]

/-- The formatted fiat write is never the neutral sentinel. -/
theorem capSix_toFixed2_ne_sentinel (q : ℚ) : capSixDecimals (toFixed2 q) ≠ "— —" := by
  intro h
  have hd := dot_mem_capSixDecimals (dot_mem_toFixed2 q)
  rw [h] at hd
  exact absurd hd (by decide)

/-- C10: in asset-authoritative mode with prerequisites satisfied, a
null derivation writes the empty string into the fiat input (with no
neutral marker); and on no code path does the synchronizer apply the
neutral sentinel to the fiat field — it neither sets the fiat neutral
marker nor writes the em-dash sentinel text into the fiat value. -/
theorem mirror_asset_null_empty_fiat_no_sentinel :
    (∀ (s : MirrorState) (p : ℚ), s.inputMode = .asset →
      ¬(s.asset = none ∨ s.asset = some "" ∨ s.assetPriceUSD = none ∨ s.assetPriceUSD = some 0) →
      s.assetPriceUSD = some p →
      deriveFromAsset (.str ⟨trimChars (removeFirst s.assetValue.data "— —".data)⟩)
        (.num p) = none →
      (updateAmountMirror s).fiatValue = "" ∧ (updateAmountMirror s).fiatNeutral = false) ∧
    (∀ s : MirrorState,
      ((updateAmountMirror s).fiatNeutral = true → s.fiatNeutral = true) ∧
      ((updateAmountMirror s).fiatValue = "— —" → s.fiatValue = "— —")) := by
  constructor
  · intro s p hm hpre hP hD
    have h1 : updateAmountMirror s = assetAuthorityPass s p := by
      unfold updateAmountMirror
      rw [if_neg hpre]
      simp only [hm, hP, Option.getD_some]
    have h2 : assetAuthorityPass s p = { s with fiatValue := "", fiatNeutral := false } := by
      unfold assetAuthorityPass
      simp only [hD]
    rw [h1, h2]
    exact ⟨rfl, rfl⟩
  · intro s
    by_cases hpre : s.asset = none ∨ s.asset = some "" ∨ s.assetPriceUSD = none ∨
        s.assetPriceUSD = some 0
    · have h : updateAmountMirror s = s := by
        unfold updateAmountMirror
        rw [if_pos hpre]
      rw [h]
      exact ⟨fun h => h, fun h => h⟩
    · rcases hPo : s.assetPriceUSD with _ | p
      · exact absurd (Or.inr (Or.inr (Or.inl hPo))) hpre
      · cases hm : s.inputMode
        · -- fiat authority: the fiat field is never written
          have h1 : updateAmountMirror s = fiatAuthorityPass s p := by
            unfold updateAmountMirror
            rw [if_neg hpre]
            simp only [hm, hPo, Option.getD_some]
          obtain ⟨f1, f2, f3, f4, f5, f6, f7⟩ := fiatAuthorityPass_frame s p
          have hn : (fiatNeutralBranch s).fiatNeutral = s.fiatNeutral := by
            unfold fiatNeutralBranch
            split_ifs <;> simp
          have hneutral : (fiatAuthorityPass s p).fiatNeutral = s.fiatNeutral := by
            unfold fiatAuthorityPass
            rcases deriveFromFiat (.str s.fiatValue) (.num p) s.chain with _ | d
            · exact hn
            · by_cases hd : 0 < d
              · by_cases hfoc : s.focused = some FocusTarget.assetField <;> simp [hd, hfoc]
              · simp only [if_neg hd]
                exact hn
          rw [h1, f6, hneutral]
          exact ⟨fun h => h, fun h => h⟩
        · -- asset authority: the write is the empty string or a decimal
          have h1 : updateAmountMirror s = assetAuthorityPass s p := by
            unfold updateAmountMirror
            rw [if_neg hpre]
            simp only [hm, hPo, Option.getD_some]
          rcases hD : deriveFromAsset
              (.str ⟨trimChars (removeFirst s.assetValue.data "— —".data)⟩) (.num p) with _ | d
          · have h2 : assetAuthorityPass s p
                = { s with fiatValue := "", fiatNeutral := false } := by
              unfold assetAuthorityPass
              simp only [hD]
            rw [h1, h2]
            exact ⟨fun h => absurd h (by simp),
              fun h => absurd (show ("" : String) = "— —" from h) (by decide)⟩
          · have h2 : assetAuthorityPass s p
                = { s with fiatValue := capSixDecimals (toFixed2 d), fiatNeutral := false, assetNeutral := false } := by
              unfold assetAuthorityPass
              simp only [hD]
            rw [h1, h2]
            refine ⟨fun h => absurd h (by simp), fun h => ?_⟩
            have h' : capSixDecimals (toFixed2 d) = "— —" := h
            exact absurd h' (capSix_toFixed2_ne_sentinel d)

/-- A concrete asset-authoritative state whose asset text (the bare
sentinel, stripped to the empty string) derives null. -/
def nullDeriveState : MirrorState :=
  { asset := some "eth"
    chain := some "Ethereum"
    inputMode := .asset
    isLocked := false
    assetPriceUSD := some 2000
    isAddressValid := false
    fiatValue := "5"
    assetValue := "— —"
    fiatNeutral := false
    assetNeutral := true
    focused := none }

/-- C10 witness. -/
theorem mirror_asset_null_empty_fiat_no_sentinel_witness :
    (updateAmountMirror nullDeriveState).fiatValue = "" ∧
    (updateAmountMirror nullDeriveState).fiatNeutral = false :=
  mirror_asset_null_empty_fiat_no_sentinel.1 nullDeriveState 2000 rfl (by decide) rfl (by decide)

/-- The asset-input digit cap of send.js ([PHASE 7I-F]). -/
def MAX_ASSET_DIGITS : ℕ := 17

/-- The sanitisation regex replace(not 0-9 or dot, empty string). -/
def sanitizeNumeric (cs : List Char) : List Char :=
  cs.filter (fun c => c.isDigit || c == '.')

/-- Digit count as computed by the beforeinput handler: sanitise, strip
dots, take the length. -/
def countDigits (cs : List Char) : ℕ :=
  ((sanitizeNumeric cs).filter (fun c => c != '.')).length

/-- The two insertion inputTypes the beforeinput guard intercepts; other
input types cannot insert text into the asset display (keydown filtering
blocks other keys and the paste handler cancels pastes). -/
inductive InsertKind where
  | insertText
  | insertFromPaste
deriving DecidableEq, Repr

/-- A text-insertion beforeinput event on the asset display: its kind,
its data, and the caret position it would insert at. -/
structure InsertEvent where
  kind : InsertKind
  data : List Char
  pos : ℕ
deriving Repr

/-- The beforeinput digit guard plus the default insertion action: when
current digits plus incoming digits exceed the cap the event is
cancelled and the text unchanged; otherwise the data is inserted at the
caret. -/
def assetInsertStep (t : List Char) (ev : InsertEvent) : List Char :=
  if MAX_ASSET_DIGITS < countDigits t + countDigits ev.data then t
  else t.take ev.pos ++ ev.data ++ t.drop ev.pos

/-- A whole sequence of insertions. -/
def assetInsertRun (t : List Char) (evs : List InsertEvent) : List Char :=
  evs.foldl assetInsertStep t

/-- countDigits distributes over concatenation. -/
theorem countDigits_append (a b : List Char) :
    countDigits (a ++ b) = countDigits a + countDigits b := by
  simp [countDigits, sanitizeNumeric, List.filter_append]

/-- C4: starting within the 17-digit cap, every sequence of insertions
stays within the cap at every intermediate state, and an insertion that
would exceed the cap is rejected outright, leaving the field unchanged. -/
theorem asset_digit_cap_invariant (t : List Char) (evs : List InsertEvent)
    (h : countDigits t ≤ MAX_ASSET_DIGITS) :
    countDigits (assetInsertRun t evs) ≤ MAX_ASSET_DIGITS ∧
    (∀ ev : InsertEvent, MAX_ASSET_DIGITS < countDigits t + countDigits ev.data →
      assetInsertStep t ev = t) := by
  constructor
  · induction evs generalizing t with
    | nil => exact h
    | cons e es ih =>
      rw [show assetInsertRun t (e :: es) = assetInsertRun (assetInsertStep t e) es from rfl]
      apply ih
      unfold assetInsertStep
      split_ifs with hb
      · exact h
      · have hsplit : countDigits (List.take e.pos t) + countDigits (List.drop e.pos t)
            = countDigits t := by
          rw [← countDigits_append, List.take_append_drop]
        rw [countDigits_append, countDigits_append]
        omega
  · intro ev hgt
    unfold assetInsertStep
    rw [if_pos hgt]

/-- C4 witness: the spec's concrete scenario — a field holding 17 digits
rejects an 18th. -/
theorem asset_digit_cap_invariant_witness :
    countDigits "12345678901234567".data ≤ MAX_ASSET_DIGITS ∧
    countDigits (assetInsertRun "12345678901234567".data
      [⟨.insertText, "8".data, 17⟩]) ≤ MAX_ASSET_DIGITS ∧
    assetInsertStep "12345678901234567".data ⟨.insertText, "8".data, 17⟩
      = "12345678901234567".data := by
  have h := asset_digit_cap_invariant "12345678901234567".data
    [⟨.insertText, "8".data, 17⟩] (by decide)
  exact ⟨by decide, h.1, h.2 ⟨.insertText, "8".data, 17⟩ (by decide)⟩

/-- The event kinds intercepted by initAmountGating. -/
inductive GateEventType where
  | click
  | mousedown
  | keydown
  | focus
deriving DecidableEq, Repr

/-- What a gating interception does: whether the event is blocked and
whether a toast is shown. -/
structure GateOutcome where
  blocked : Bool
  toast : Bool
deriving DecidableEq, Repr

/-- initAmountGating's handleIntent: pass through when the address is
structurally valid; otherwise block (preventDefault, stopPropagation,
blur) and toast except on the passive focus event. -/
def handleIntent (isAddressValid : Bool) (t : GateEventType) : GateOutcome :=
  if isAddressValid then ⟨false, false⟩
  else { blocked := true, toast := if t = .focus then false else true }

/-- startDrag's gate: with an invalid address the drag is cancelled with
a toast. -/
def startDragGate (isAddressValid : Bool) : GateOutcome :=
  if isAddressValid then ⟨false, false⟩ else ⟨true, true⟩

/-- C9: with a structurally invalid address every amount-field
interaction (click, mousedown, keydown, focus) and the drag-to-confirm
start are blocked; the intentional events and the drag start surface a
toast while the passive focus block is silent; with a valid address
nothing is blocked. -/
theorem amount_gating_blocks_invalid_address :
    (∀ t, (handleIntent false t).blocked = true) ∧
    (∀ t, ((handleIntent false t).toast = true ↔ t ≠ GateEventType.focus)) ∧
    (startDragGate false).blocked = true ∧
    (startDragGate false).toast = true ∧
    (∀ t, handleIntent true t = ⟨false, false⟩) := by
  refine ⟨fun t => rfl, ?_, rfl, rfl, fun t => rfl⟩
  intro t
  cases t <;> simp [handleIntent]
